import Mathlib

/-!
Verification development for the stackstart enhancement-recommendation engine
(`src/generators/ai-enhancer.ts`).

The TypeScript source is shallowly embedded as follows.

* The project manifest (`package.json`) is a structured record; the JS objects
  `dependencies`, `devDependencies` and `scripts` become association lists from
  names to version/command strings.  JS object property assignment
  (`obj[k] = v`) becomes `setKey` (replace the first entry with that key, or
  append), and `obj?.[k]` becomes `lookupKey`.  JS truthiness of a looked-up
  version string is `truthyStr` (the empty string is falsy).
* The file system visible to the engine is `FS`: the parsed manifest (if
  `package.json` exists), text files as an association list from relative
  paths to `Option String` (`some c` = readable file with content `c`,
  `none` = the file exists but `readFileSync` raises on it, e.g. for
  permission reasons), and the set of created directories.  Exact generated
  file bodies are abbreviated to short constant strings; per the design the
  bodies are not a compatibility surface, and only their identity across runs
  matters for the theorems below.
* Each `Enhancement.implementation` closure in the source just invokes one
  private method of `AIProjectAnalyzer`; enhancements therefore carry an
  `ImplTag` naming that method, and `interp` gives every tag its meaning as a
  state transformer `FS → FS × Bool`, the `Bool` recording whether the method
  ran to completion (`false` = it threw an exception; the state is the state
  at the point of the throw, since file-system effects persist).
* The applier `enhanceWithAI` is modelled with an explicit invocation trace so
  that ordering claims can be stated about which `apply` operations ran.
  The `try`/`catch` of the source becomes the propagation of the `Bool` flag:
  a failed action stops the run, and the summary write only happens on the
  all-success path, exactly as in the source.
-/

/-! ## Association lists (JS object semantics) -/

/-- JS property write `obj[k] = v`: replace the first binding of `k`,
or append a new binding if `k` is absent. -/
def setKey {β : Type} : List (String × β) → String → β → List (String × β)
  | [], k, v => [(k, v)]
  | p :: t, k, v => if p.1 = k then (k, v) :: t else p :: setKey t k v

/-- JS property read `obj?.[k]`. -/
def lookupKey {β : Type} : List (String × β) → String → Option β
  | [], _ => none
  | p :: t, k => if p.1 = k then some p.2 else lookupKey t k

/-! ## Directory creation (`mkdirSync` guarded by `existsSync`) -/

/-- The effect of `if (!existsSync(dir)) mkdirSync(dir)` on the set of directories. -/
def addDir (l : List String) (d : String) : List String :=
  if d ∈ l then l else l ++ [d]

/-! ## Substring search (JS `String.prototype.includes`) -/

/-- Boolean check that the first character list is an initial segment of the second. -/
def chPre : List Char → List Char → Bool
  | [], _ => true
  | _ :: _, [] => false
  | a :: as, b :: bs => a == b && chPre as bs

/-- Boolean check that the first character list occurs contiguously in the second. -/
def chSub (pat : List Char) : List Char → Bool
  | [] => chPre pat []
  | s@(_ :: rest) => chPre pat s || chSub pat rest

/-- JS `s.includes(pat)`. -/
def containsSub (s pat : String) : Bool := chSub pat.toList s.toList

/-- JS `s.endsWith(pat)`, computed on character lists. -/
def strEndsWith (s pat : String) : Bool := chPre pat.toList.reverse s.toList.reverse

/-- JS `s.toLowerCase()`, computed on character lists. -/
def strToLower (s : String) : String := String.mk (s.toList.map Char.toLower)

/-! ## Data model -/

/-- The parsed `package.json` manifest.  A missing `dependencies` /
`devDependencies` / `scripts` object is observationally identical to an empty
one everywhere in the source (optional chaining yields `undefined`, and the
`x || {}` defaults before writes), so the three maps are plain lists. -/
structure Manifest where
  name : String
  dependencies : List (String × String)
  devDependencies : List (String × String)
  scripts : List (String × String)
deriving DecidableEq, Repr

/-- The file-system state an enhancement run reads and writes.
`packageJson = none` means no `package.json` exists at the project root.
In `files`, a binding to `some c` is a readable text file with content `c`
and a binding to `none` is a file that exists (so `existsSync` is true) but
on which `readFileSync` raises. -/
structure FS where
  packageJson : Option Manifest
  files : List (String × Option String)
  dirs : List String
deriving DecidableEq, Repr

/-- `Enhancement.priority` in the source. -/
inductive Priority where
  | high
  | medium
  | low
deriving DecidableEq, Repr

/-- `Enhancement.type` in the source. -/
inductive EnhType where
  | file
  | dependency
  | config
  | code
deriving DecidableEq, Repr

/-- Names of the private implementation methods of `AIProjectAnalyzer`; the
`implementation` closure of each synthesized enhancement invokes exactly one
of these. -/
inductive ImplTag where
  | addLogging
  | addErrorHandling
  | addEnvironmentConfig
  | addValidation
  | addApiDocumentation
  | enhanceTestingConfig
  | addReactPerformanceUtils
  | addReactRouter
  | addReactHooks
  | addDatabaseUtils
  | addSecurityMiddleware
  | addRateLimitingAndCaching
  | addPythonLogging
  | addPythonWebUtils
  | addPythonTypeHints
  | addApiClientUtils
deriving DecidableEq, Repr

/-- The `Enhancement` interface of the source, with the implementation closure
defunctionalized to the name of the method it invokes. -/
structure Enhancement where
  etype : EnhType
  description : String
  priority : Priority
  impl : ImplTag
deriving DecidableEq, Repr

/-- The `ProjectStructure` feature vector. -/
structure ProjectStructure where
  hasTests : Bool
  hasLinting : Bool
  hasFormatting : Bool
  hasTypeScript : Bool
  hasDocumentation : Bool
  hasErrorHandling : Bool
  hasEnvironmentConfig : Bool
  hasLogging : Bool
  hasValidation : Bool
  hasApiDocumentation : Bool
deriving DecidableEq, Repr

/-- The `ProjectAnalysis` record returned by `AIProjectAnalyzer.analyze`. -/
structure ProjectAnalysis where
  template : String
  packageJson : Option Manifest
  dependencies : List String
  devDependencies : List String
  files : List String
  projStructure : ProjectStructure
  improvements : List Enhancement
deriving DecidableEq, Repr

/-! ## Structure classifier -/

/-- JS truthiness of an optionally looked-up version string:
`undefined` and the empty string are falsy. -/
def truthyStr : Option String → Bool
  | some v => v != ""
  | none => false

/-- Truthiness of `packageJson?.dependencies?.[lib]`. -/
def depTruthy (pj : Option Manifest) (lib : String) : Bool :=
  match pj with
  | some m => truthyStr (lookupKey m.dependencies lib)
  | none => false

/-- Truthiness of `packageJson?.devDependencies?.[lib]`. -/
def devDepTruthy (pj : Option Manifest) (lib : String) : Bool :=
  match pj with
  | some m => truthyStr (lookupKey m.devDependencies lib)
  | none => false

/-- The lookup `packageJson?.dependencies?.[lib]` itself. -/
def depLookup (pj : Option Manifest) (lib : String) : Option String :=
  match pj with
  | some m => lookupKey m.dependencies lib
  | none => none

/-- The lookup `packageJson?.devDependencies?.[lib]` itself. -/
def devDepLookup (pj : Option Manifest) (lib : String) : Option String :=
  match pj with
  | some m => lookupKey m.devDependencies lib
  | none => none

/-- File extensions the error-handling content scan considers code-like. -/
def isCodeFile (f : String) : Bool :=
  strEndsWith f ".js" || strEndsWith f ".ts" || strEndsWith f ".jsx" || strEndsWith f ".tsx"

/-- `checkForErrorHandling`: walks the listed files; for each code-like file
that still exists it reads the content and looks for try/catch/throw.  A file
that no longer exists is skipped; a file that exists but cannot be read makes
`readFileSync` raise, which aborts the scan (`Except.error`). -/
def checkForErrorHandling (fs : FS) : List String → Except Unit Bool
  | [] => Except.ok false
  | f :: rest =>
      if isCodeFile f then
        match lookupKey fs.files f with
        | some (some content) =>
            if containsSub content "try" || containsSub content "catch" ||
                containsSub content "throw" then
              Except.ok true
            else
              checkForErrorHandling fs rest
        | some none => Except.error ()
        | none => checkForErrorHandling fs rest
      else
        checkForErrorHandling fs rest

/-- The logging allow-list of `checkForLogging`. -/
def loggingLibs : List String := ["winston", "bunyan", "pino", "morgan"]

/-- `checkForLogging`: a truthy allow-listed dependency or dev-dependency, or
any file path containing the substring `log`. -/
def checkForLogging (files : List String) (pj : Option Manifest) : Bool :=
  loggingLibs.any (fun lib => depTruthy pj lib || devDepTruthy pj lib) ||
    files.any (fun f => containsSub f "log")

/-- The validation allow-list of `checkForValidation`. -/
def validationLibs : List String := ["joi", "yup", "ajv", "express-validator", "zod"]

/-- `checkForValidation`: a truthy allow-listed dependency or dev-dependency.
The `files` argument is accepted, as in the source, but never consulted. -/
def checkForValidation (files : List String) (pj : Option Manifest) : Bool :=
  validationLibs.any (fun lib => depTruthy pj lib || devDepTruthy pj lib)

/-- `analyzeStructure`: the ten feature predicates.  Only the error-handling
feature reads file contents and can therefore fail. -/
def analyzeStructure (fs : FS) (files : List String) (packageJson : Option Manifest) :
    Except Unit ProjectStructure :=
  match checkForErrorHandling fs files with
  | Except.error e => Except.error e
  | Except.ok errHandling =>
      Except.ok
        { hasTests := files.any (fun f => containsSub f "test" || containsSub f "spec") ||
            devDepTruthy packageJson "jest" || devDepTruthy packageJson "mocha"
          hasLinting := devDepTruthy packageJson "eslint" ||
            files.any (fun f => containsSub f "eslint")
          hasFormatting := devDepTruthy packageJson "prettier" ||
            files.any (fun f => containsSub f "prettier")
          hasTypeScript := files.any (fun f => strEndsWith f ".ts" || strEndsWith f ".tsx") ||
            devDepTruthy packageJson "typescript"
          hasDocumentation := files.any (fun f => containsSub (strToLower f) "readme")
          hasErrorHandling := errHandling
          hasEnvironmentConfig := files.any (fun f => containsSub f ".env" || containsSub f "config")
          hasLogging := checkForLogging files packageJson
          hasValidation := checkForValidation files packageJson
          hasApiDocumentation := files.any (fun f => containsSub f "swagger" || containsSub f "openapi") }

/-- `packageJson?.dependencies ? Object.keys(packageJson.dependencies) : []`. -/
def depsList (pj : Option Manifest) : List String :=
  match pj with
  | some m => m.dependencies.map (fun p => p.1)
  | none => []

/-- Same for dev-dependencies. -/
def devDepsList (pj : Option Manifest) : List String :=
  match pj with
  | some m => m.devDependencies.map (fun p => p.1)
  | none => []

/-! ## Improvement synthesizer -/

/-- Generic rule: add structured logging (high). -/
def loggingEnh : Enhancement :=
  { etype := EnhType.dependency
    description := "Add structured logging with Winston"
    priority := Priority.high
    impl := ImplTag.addLogging }

/-- Generic rule: add centralized error handling (high). -/
def errorHandlingEnh : Enhancement :=
  { etype := EnhType.code
    description := "Add comprehensive error handling"
    priority := Priority.high
    impl := ImplTag.addErrorHandling }

/-- Generic rule: add environment configuration (medium). -/
def envConfigEnh : Enhancement :=
  { etype := EnhType.config
    description := "Add environment configuration with dotenv"
    priority := Priority.medium
    impl := ImplTag.addEnvironmentConfig }

/-- Generic rule for node-like templates: add input validation (medium). -/
def validationEnh : Enhancement :=
  { etype := EnhType.dependency
    description := "Add input validation with Joi"
    priority := Priority.medium
    impl := ImplTag.addValidation }

/-- Generic rule for node-like templates: add API documentation (medium). -/
def apiDocEnh : Enhancement :=
  { etype := EnhType.file
    description := "Add API documentation with Swagger/OpenAPI"
    priority := Priority.medium
    impl := ImplTag.addApiDocumentation }

/-- Unconditional generic rule: enhance the testing configuration (medium). -/
def testingEnh : Enhancement :=
  { etype := EnhType.config
    description := "Enhance testing configuration with coverage reporting"
    priority := Priority.medium
    impl := ImplTag.enhanceTestingConfig }

/-- React rule set entries. -/
def reactPerfEnh : Enhancement :=
  { etype := EnhType.file
    description := "Add React performance optimization utilities"
    priority := Priority.medium
    impl := ImplTag.addReactPerformanceUtils }

def reactRouterEnh : Enhancement :=
  { etype := EnhType.dependency
    description := "Add React Router for navigation"
    priority := Priority.medium
    impl := ImplTag.addReactRouter }

def reactHooksEnh : Enhancement :=
  { etype := EnhType.file
    description := "Add custom React hooks for common patterns"
    priority := Priority.low
    impl := ImplTag.addReactHooks }

/-- Node rule set entries. -/
def databaseEnh : Enhancement :=
  { etype := EnhType.file
    description := "Add database connection utilities"
    priority := Priority.medium
    impl := ImplTag.addDatabaseUtils }

def securityEnh : Enhancement :=
  { etype := EnhType.dependency
    description := "Add security middleware (helmet, cors)"
    priority := Priority.high
    impl := ImplTag.addSecurityMiddleware }

def cachingEnh : Enhancement :=
  { etype := EnhType.file
    description := "Add rate limiting and caching"
    priority := Priority.medium
    impl := ImplTag.addRateLimitingAndCaching }

/-- Python rule set entries. -/
def pythonLoggingEnh : Enhancement :=
  { etype := EnhType.file
    description := "Add Python logging configuration"
    priority := Priority.high
    impl := ImplTag.addPythonLogging }

def pythonWebEnh : Enhancement :=
  { etype := EnhType.file
    description := "Add Flask/FastAPI utilities"
    priority := Priority.medium
    impl := ImplTag.addPythonWebUtils }

def pythonTypeHintsEnh : Enhancement :=
  { etype := EnhType.config
    description := "Add Python type hints and mypy configuration"
    priority := Priority.medium
    impl := ImplTag.addPythonTypeHints }

/-- Full-stack extra entry. -/
def apiClientEnh : Enhancement :=
  { etype := EnhType.file
    description := "Add API client utilities for frontend-backend communication"
    priority := Priority.high
    impl := ImplTag.addApiClientUtils }

/-- `getReactImprovements` (the `structure` argument is accepted but unused,
as in the source). -/
def getReactImprovements (st : ProjectStructure) : List Enhancement :=
  [reactPerfEnh, reactRouterEnh, reactHooksEnh]

/-- `getNodeImprovements`. -/
def getNodeImprovements (st : ProjectStructure) : List Enhancement :=
  [databaseEnh, securityEnh, cachingEnh]

/-- `getPythonImprovements`. -/
def getPythonImprovements (st : ProjectStructure) : List Enhancement :=
  [pythonLoggingEnh, pythonWebEnh, pythonTypeHintsEnh]

/-- `getFullStackImprovements`: concatenates the react and node rule sets with
no de-duplication, then the API client enhancement. -/
def getFullStackImprovements (st : ProjectStructure) : List Enhancement :=
  getReactImprovements st ++ getNodeImprovements st ++ [apiClientEnh]

/-- `getTemplateSpecificImprovements`: the `switch` over the template family;
an unknown template contributes nothing. -/
def getTemplateSpecificImprovements (template : String) (st : ProjectStructure) :
    List Enhancement :=
  if template = "react" then getReactImprovements st
  else if template = "node" then getNodeImprovements st
  else if template = "python" then getPythonImprovements st
  else if template = "full-stack" then getFullStackImprovements st
  else []

/-- Whether the template is node-like for the generic validation and API
documentation rules. -/
def nodeLike (template : String) : Bool :=
  template = "node" || template = "full-stack"

/-- `identifyImprovements`: the sequential conditional pushes of the source,
as a concatenation of zero-or-one-element segments, then the unconditional
testing rule, then the template-specific rules.  The `packageJson` argument is
accepted, as in the source, but not consulted. -/
def identifyImprovements (template : String) (st : ProjectStructure)
    (packageJson : Option Manifest) : List Enhancement :=
  (if st.hasLogging then [] else [loggingEnh]) ++
    (if st.hasErrorHandling then [] else [errorHandlingEnh]) ++
    (if st.hasEnvironmentConfig then [] else [envConfigEnh]) ++
    (if nodeLike template && !st.hasValidation then [validationEnh] else []) ++
    (if nodeLike template && !st.hasApiDocumentation then [apiDocEnh] else []) ++
    [testingEnh] ++
    getTemplateSpecificImprovements template st

/-- `AIProjectAnalyzer.analyze`: classification followed by synthesis; the
only failure path is the content scan inside classification. -/
def analyze (fs : FS) (files : List String) (template : String) :
    Except Unit ProjectAnalysis :=
  match analyzeStructure fs files fs.packageJson with
  | Except.error e => Except.error e
  | Except.ok st =>
      Except.ok
        { template := template
          packageJson := fs.packageJson
          dependencies := depsList fs.packageJson
          devDependencies := devDepsList fs.packageJson
          files := files
          projStructure := st
          improvements := identifyImprovements template st fs.packageJson }

/-! ## File-system primitives used by the implementation methods -/

/-- `writeFileSync` of a text file (creates or overwrites). -/
def FS.writeF (s : FS) (p c : String) : FS :=
  { s with files := setKey s.files p (some c) }

/-- `mkdirSync` guarded by `existsSync`. -/
def FS.mkdirF (s : FS) (d : String) : FS :=
  { s with dirs := addDir s.dirs d }

/-- Rewriting `package.json` with a mutated manifest. -/
def FS.setPJ (s : FS) (m : Manifest) : FS :=
  { s with packageJson := some m }

/-- `packageJson.dependencies[k] = v` (after the `|| {}` default). -/
def Manifest.setDep (m : Manifest) (k v : String) : Manifest :=
  { m with dependencies := setKey m.dependencies k v }

/-- `packageJson.devDependencies[k] = v`. -/
def Manifest.setDevDep (m : Manifest) (k v : String) : Manifest :=
  { m with devDependencies := setKey m.devDependencies k v }

/-- `packageJson.scripts[k] = v`. -/
def Manifest.setScript (m : Manifest) (k v : String) : Manifest :=
  { m with scripts := setKey m.scripts k v }

/-! ## Generated file bodies

The exact bodies are template literals in the source; they are not a
compatibility surface, so they are abbreviated here to short constants.  All
that matters for the verification is that each run writes the same constant. -/

def loggerJsBody : String := "winston createLogger configuration module"

def errorHandlerBody : String := "AppError handleError asyncHandler utilities"

def envExampleBody : String := "example environment variable assignments"

/-- The text appended to an existing `.gitignore` that lacks `.env`. -/
def gitignoreAppendText : String := "\n.env\n"

/-- The `.gitignore` created when none exists. -/
def gitignoreFreshBody : String := ".env\nnode_modules/\nlogs/\n"

def validationBody : String := "Joi validateRequest schemas module"

def swaggerBody : String := "swagger-jsdoc setupSwagger module"

def jestConfigBody : String := "jest coverage configuration"

def performanceBody : String := "memo debounce throttle helpers"

def useApiHookBody : String := "useApi data fetching hook"

def databaseBody : String := "database connection utility"

def securityBody : String := "helmet cors rate limit middleware"

def cacheBody : String := "node-cache caching middleware"

def pythonLoggerBody : String := "python logging setup module"

def pythonWebBody : String := "flask decorator utilities module"

/-- The text appended to `requirements.txt` when it lacks `mypy`.  When no
`requirements.txt` exists the source appends to the empty string, so this is
also the body of a freshly created file. -/
def mypyAppendText : String := "\nmypy==1.7.1\n"

def mypyIniBody : String := "mypy strict configuration"

def apiClientBody : String := "ApiClient fetch wrapper"

/-! ## The implementation methods

`interp t s` is the effect of running the private method named `t` on the
file-system state `s`.  The `Bool` is `false` when the method raises: every
method whose first statement is `JSON.parse(readFileSync(packageJsonPath))`
raises when `package.json` is missing, and the guarded reads of `.gitignore`
and `requirements.txt` raise when that file exists but is unreadable. -/
def interp : ImplTag → FS → FS × Bool
  | ImplTag.addLogging, s =>
      match s.packageJson with
      | none => (s, false)
      | some m =>
          ((((s.setPJ (m.setDep "winston" "^3.11.0")).mkdirF "src/utils").mkdirF
              "logs").writeF "src/utils/logger.js" loggerJsBody, true)
  | ImplTag.addErrorHandling, s =>
      ((s.mkdirF "src/utils").writeF "src/utils/errorHandler.js" errorHandlerBody, true)
  | ImplTag.addEnvironmentConfig, s =>
      match s.packageJson with
      | none => (s, false)
      | some m =>
          let s1 := (s.setPJ (m.setDep "dotenv" "^16.3.1")).writeF ".env.example" envExampleBody
          match lookupKey s1.files ".gitignore" with
          | some (some g) =>
              if containsSub g ".env" then (s1, true)
              else (s1.writeF ".gitignore" (g ++ gitignoreAppendText), true)
          | some none => (s1, false)
          | none => (s1.writeF ".gitignore" gitignoreFreshBody, true)
  | ImplTag.addValidation, s =>
      match s.packageJson with
      | none => (s, false)
      | some m =>
          (((s.setPJ (m.setDep "joi" "^17.11.0")).mkdirF "src/utils").writeF
              "src/utils/validation.js" validationBody, true)
  | ImplTag.addApiDocumentation, s =>
      match s.packageJson with
      | none => (s, false)
      | some m =>
          (((s.setPJ ((m.setDep "swagger-ui-express" "^5.0.0").setDep
              "swagger-jsdoc" "^6.2.8")).mkdirF "src/utils").writeF
              "src/utils/swagger.js" swaggerBody, true)
  | ImplTag.enhanceTestingConfig, s =>
      match s.packageJson with
      | none => (s, false)
      | some m =>
          ((s.setPJ ((((m.setScript "test:coverage" "jest --coverage").setScript
              "test:watch" "jest --watch").setDevDep "@types/jest"
              "^29.5.2").setDevDep "supertest" "^6.3.3")).writeF
              "jest.config.js" jestConfigBody, true)
  | ImplTag.addReactPerformanceUtils, s =>
      ((s.mkdirF "src/utils").writeF "src/utils/performance.js" performanceBody, true)
  | ImplTag.addReactRouter, s =>
      match s.packageJson with
      | none => (s, false)
      | some m => (s.setPJ (m.setDep "react-router-dom" "^6.8.0"), true)
  | ImplTag.addReactHooks, s =>
      ((s.mkdirF "src/hooks").writeF "src/hooks/useApi.js" useApiHookBody, true)
  | ImplTag.addDatabaseUtils, s =>
      ((s.mkdirF "src/utils").writeF "src/utils/database.js" databaseBody, true)
  | ImplTag.addSecurityMiddleware, s =>
      match s.packageJson with
      | none => (s, false)
      | some m =>
          (((s.setPJ (((m.setDep "helmet" "^7.1.0").setDep "cors"
              "^2.8.5").setDep "express-rate-limit" "^7.1.5")).mkdirF
              "src/middleware").writeF "src/middleware/security.js" securityBody, true)
  | ImplTag.addRateLimitingAndCaching, s =>
      match s.packageJson with
      | none => (s, false)
      | some m =>
          (((s.setPJ (m.setDep "node-cache" "^5.1.2")).mkdirF "src/utils").writeF
              "src/utils/cache.js" cacheBody, true)
  | ImplTag.addPythonLogging, s =>
      ((s.mkdirF "src/utils").writeF "src/utils/logger.py" pythonLoggerBody, true)
  | ImplTag.addPythonWebUtils, s =>
      ((s.mkdirF "src/utils").writeF "src/utils/web.py" pythonWebBody, true)
  | ImplTag.addPythonTypeHints, s =>
      match lookupKey s.files "requirements.txt" with
      | some none => (s, false)
      | some (some r) =>
          ((s.writeF "requirements.txt"
              (if containsSub r "mypy" then r else r ++ mypyAppendText)).writeF
              "mypy.ini" mypyIniBody, true)
      | none =>
          ((s.writeF "requirements.txt" mypyAppendText).writeF "mypy.ini" mypyIniBody, true)
  | ImplTag.addApiClientUtils, s =>
      ((s.mkdirF "client/src/utils").writeF "client/src/utils/apiClient.js" apiClientBody, true)

/-! ## Enhancement applier -/

/-- An enhancement as the applier sees it: a description, a priority and the
deferred `apply` operation.  The ordering and summary theorems below quantify
over arbitrary actions, so any possible `apply` behaviour (including throwing
anywhere) is covered. -/
structure EnhAction where
  description : String
  priority : Priority
  run : FS → FS × Bool

/-- The applier view of a synthesized enhancement: its `implementation`
closure invokes the method named by its tag. -/
def toAction (e : Enhancement) : EnhAction :=
  { description := e.description
    priority := e.priority
    run := interp e.impl }

/-- One `for (const improvement of list) await improvement.implementation()`
loop.  The trace records the descriptions of the actions that were invoked,
including the one that threw; a throw stops the loop. -/
def runList : List EnhAction → FS → FS × Bool × List String
  | [], s => (s, true, [])
  | e :: rest, s =>
      match e.run s with
      | (s1, true) =>
          let r := runList rest s1
          (r.1, r.2.1, e.description :: r.2.2)
      | (s1, false) => (s1, false, [e.description])

/-- The location of the summary artifact relative to the project root. -/
def summaryPath : String := "AI_ENHANCEMENTS.md"

/-- The body of `enhanceWithAI` after analysis: the three priority-filtered
application loops inside one `try`, followed (still inside the `try`) by the
summary write.  A throw anywhere jumps to the `catch`, which logs and returns,
so the function itself is total; the `Bool` result distinguishes the success
path from the caught-failure path. -/
def applyAll (imps : List EnhAction) (summaryText : String) (s : FS) :
    FS × Bool × List String :=
  match runList (imps.filter fun e => e.priority == Priority.high) s with
  | (s1, true, t1) =>
      match runList (imps.filter fun e => e.priority == Priority.medium) s1 with
      | (s2, true, t2) =>
          match runList (imps.filter fun e => e.priority == Priority.low) s2 with
          | (s3, true, t3) => (s3.writeF summaryPath summaryText, true, t1 ++ t2 ++ t3)
          | (s3, false, t3) => (s3, false, t1 ++ t2 ++ t3)
      | (s2, false, t2) => (s2, false, t1 ++ t2)
  | (s1, false, t1) => (s1, false, t1)

/-- The order in which `applyAll` invokes actions when nothing throws: all
high, then all medium, then all low, each group in insertion order. -/
def invocationOrder (imps : List EnhAction) : List EnhAction :=
  imps.filter (fun e => e.priority == Priority.high) ++
    imps.filter (fun e => e.priority == Priority.medium) ++
    imps.filter (fun e => e.priority == Priority.low)

/-- Rank used to state the priority ordering: high before medium before low. -/
def prioRank : Priority → Nat
  | Priority.high => 0
  | Priority.medium => 1
  | Priority.low => 2

/-- Rendering of `${imp.priority}` in the summary. -/
def prioName : Priority → String
  | Priority.high => "high"
  | Priority.medium => "medium"
  | Priority.low => "low"

/-- The summary bullet for one synthesized enhancement. -/
def summaryLine (e : Enhancement) : String :=
  "- **" ++ e.description ++ "** (" ++ prioName e.priority ++ " priority)"

/-- Rendering of `Present` / `Missing` in the structure section. -/
def presentStr (b : Bool) : String := if b then "Present" else "Missing"

/-- The structure-analysis section of the summary. -/
def structureLines (st : ProjectStructure) : List String :=
  ["Tests: " ++ presentStr st.hasTests,
   "Linting: " ++ presentStr st.hasLinting,
   "Formatting: " ++ presentStr st.hasFormatting,
   "TypeScript: " ++ presentStr st.hasTypeScript,
   "Documentation: " ++ presentStr st.hasDocumentation,
   "Error Handling: " ++ presentStr st.hasErrorHandling,
   "Environment Config: " ++ presentStr st.hasEnvironmentConfig,
   "Logging: " ++ presentStr st.hasLogging,
   "Validation: " ++ presentStr st.hasValidation,
   "API Documentation: " ++ presentStr st.hasApiDocumentation]

/-- The lines of the summary artifact: one bullet per synthesized enhancement
(every one, in synthesis order, labelled with its priority), then the project
analysis counts, then the feature vector. -/
def summaryLines (a : ProjectAnalysis) : List String :=
  a.improvements.map summaryLine ++
    ["Template: " ++ a.template,
     "Dependencies: " ++ toString a.dependencies.length ++ " production dependencies",
     "Dev Dependencies: " ++ toString a.devDependencies.length ++ " development dependencies",
     "Files: " ++ toString a.files.length ++ " files analyzed"] ++
    structureLines a.projStructure

/-- The summary artifact text. -/
def renderSummary (a : ProjectAnalysis) : String :=
  String.intercalate
    "\n" ("# AI Enhancement Summary" :: summaryLines a)

/-- `enhanceWithAI`: analyze, then apply in priority order, then (only on the
all-success path) write the summary; any throw is caught at the top level, so
the modelled function is total and never propagates an error. -/
def enhanceWithAI (s : FS) (files : List String) (template : String) :
    FS × Bool × List String :=
  match analyze s files template with
  | Except.error _ => (s, false, [])
  | Except.ok a => applyAll (a.improvements.map toAction) (renderSummary a) s

@[simp]
theorem lookupKey_nil {β : Type} (k : String) : lookupKey ([] : List (String × β)) k = none := rfl

theorem lookup_setKey_self {β : Type} (l : List (String × β)) (k : String) (v : β) :
    lookupKey (setKey l k v) k = some v := by
  induction l with
  | nil => simp [setKey, lookupKey]
  | cons p t ih =>
      by_cases h : p.1 = k
      · simp [setKey, lookupKey, h]
      · simp [setKey, lookupKey, h, ih]

theorem lookup_setKey_ne {β : Type} (l : List (String × β)) {k k' : String} (v' : β)
    (h : k ≠ k') : lookupKey (setKey l k' v') k = lookupKey l k := by
  have h' : k' ≠ k := Ne.symm h
  induction l with
  | nil => simp [setKey, lookupKey, h']
  | cons p t ih =>
      by_cases hp : p.1 = k'
      · simp [setKey, lookupKey, hp, h']
      · simp [setKey, lookupKey, hp, ih]

theorem setKey_eq_of_lookup {β : Type} {l : List (String × β)} {k : String} {v : β}
    (h : lookupKey l k = some v) : setKey l k v = l := by
  induction l with
  | nil => simp [lookupKey] at h
  | cons p t ih =>
      by_cases hp : p.1 = k
      · simp only [lookupKey, if_pos hp, Option.some.injEq] at h
        simp only [setKey, if_pos hp]
        rw [← h, ← hp]
      · simp only [lookupKey, if_neg hp] at h
        simp [setKey, hp, ih h]

theorem setKey_setKey_self {β : Type} (l : List (String × β)) (k : String) (v : β) :
    setKey (setKey l k v) k v = setKey l k v :=
  setKey_eq_of_lookup (lookup_setKey_self l k v)

theorem mem_addDir_self (l : List String) (d : String) : d ∈ addDir l d := by
  by_cases h : d ∈ l <;> simp [addDir, h]

theorem addDir_eq_of_mem {l : List String} {d : String} (h : d ∈ l) : addDir l d = l := by
  simp [addDir, h]

theorem mem_addDir_mono {l : List String} {d : String} (d' : String) (h : d ∈ l) :
    d ∈ addDir l d' := by
  by_cases h' : d' ∈ l <;> simp [addDir, h', h]

theorem addDir_addDir_self (l : List String) (d : String) :
    addDir (addDir l d) d = addDir l d :=
  addDir_eq_of_mem (mem_addDir_self l d)

theorem toList_str_append (a b : String) : (a ++ b).toList = a.toList ++ b.toList := rfl

theorem chSub_cons (pat : List Char) (c : Char) (l : List Char) :
    chSub pat (c :: l) = (chPre pat (c :: l) || chSub pat l) := rfl

theorem chSub_append_right (pat a b : List Char) (h : chSub pat b = true) :
    chSub pat (a ++ b) = true := by
  induction a with
  | nil => simpa using h
  | cons c t ih =>
      rw [List.cons_append, chSub_cons, Bool.or_eq_true]
      exact Or.inr ih

/-- Appending text that contains the pattern makes `containsSub` true. -/
theorem containsSub_append_right (a b pat : String) (h : containsSub b pat = true) :
    containsSub (a ++ b) pat = true := by
  unfold containsSub at *
  rw [toList_str_append]
  exact chSub_append_right _ _ _ h

theorem containsSub_of_eq_append (s a b pat : String) (hs : s = a ++ b)
    (h : containsSub b pat = true) : containsSub s pat = true := by
  rw [hs]; exact containsSub_append_right a b pat h

/-! ## Applier lemmas -/

theorem runList_append (A B : List EnhAction) (s : FS) :
    runList (A ++ B) s =
      (let ra := runList A s
       if ra.2.1 then
         ((runList B ra.1).1, (runList B ra.1).2.1, ra.2.2 ++ (runList B ra.1).2.2)
       else ra) := by
  induction A generalizing s with
  | nil => simp [runList]
  | cons e t ih =>
      rcases h : e.run s with ⟨s1, ok⟩
      cases ok
      · simp [runList, h]
      · simp only [List.cons_append, runList, h, List.append_eq]
        rw [ih s1]
        split <;> simp_all

/-- The trace of one application loop is a prefix of the descriptions of the
actions it was given, in their order. -/
theorem runList_trace_take (l : List EnhAction) (s : FS) :
    ∃ k, (runList l s).2.2 = (l.map (fun e => e.description)).take k := by
  induction l generalizing s with
  | nil => exact ⟨0, rfl⟩
  | cons e t ih =>
      rcases h : e.run s with ⟨s1, ok⟩
      cases ok
      · exact ⟨1, by simp [runList, h]⟩
      · obtain ⟨k, hk⟩ := ih s1
        exact ⟨k + 1, by simp [runList, h, hk]⟩

/-- Collapsing the three priority loops of `applyAll` into a single loop over
`invocationOrder`, with the summary written only when every action succeeded
and the state at the first failure returned otherwise. -/
theorem applyAll_eq (imps : List EnhAction) (txt : String) (s : FS) :
    applyAll imps txt s =
      (let r := runList (invocationOrder imps) s
       (if r.2.1 then FS.writeF r.1 summaryPath txt else r.1, r.2.1, r.2.2)) := by
  unfold applyAll invocationOrder
  rw [runList_append, runList_append]
  rcases h1 : runList (imps.filter fun e => e.priority == Priority.high) s with ⟨s1, ok1, t1⟩
  cases ok1
  · simp
  · rcases h2 : runList (imps.filter fun e => e.priority == Priority.medium) s1 with ⟨s2, ok2, t2⟩
    cases ok2
    · simp [h2]
    · rcases h3 : runList (imps.filter fun e => e.priority == Priority.low) s2 with ⟨s3, ok3, t3⟩
      cases ok3 <;> simp [h2, h3]

theorem priority_of_mem_filter {imps : List EnhAction} {p : Priority} {e : EnhAction}
    (h : e ∈ imps.filter (fun x => x.priority == p)) : e.priority = p := by
  have := (List.mem_filter.mp h).2
  simpa [beq_iff_eq] using this

/-- Along `invocationOrder`, priority ranks never decrease. -/
theorem invocationOrder_sorted (imps : List EnhAction) :
    List.Pairwise (fun a b => prioRank a.priority ≤ prioRank b.priority)
      (invocationOrder imps) := by
  unfold invocationOrder
  rw [List.pairwise_append]
  refine ⟨?_, ?_, ?_⟩
  · rw [List.pairwise_append]
    refine ⟨?_, ?_, ?_⟩
    · exact List.pairwise_of_forall_mem_list fun a ha b hb => by
        rw [priority_of_mem_filter ha, priority_of_mem_filter hb]
    · exact List.pairwise_of_forall_mem_list fun a ha b hb => by
        rw [priority_of_mem_filter ha, priority_of_mem_filter hb]
    · intro a ha b hb
      rw [priority_of_mem_filter ha, priority_of_mem_filter hb]
      simp [prioRank]
  · exact List.pairwise_of_forall_mem_list fun a ha b hb => by
      rw [priority_of_mem_filter ha, priority_of_mem_filter hb]
  · intro a ha b hb
    rw [List.mem_append] at ha
    rcases ha with ha | ha <;>
      rw [priority_of_mem_filter ha, priority_of_mem_filter hb] <;> simp [prioRank]

theorem filter_filter_same (imps : List EnhAction) (p : Priority) :
    (imps.filter (fun e => e.priority == p)).filter (fun e => e.priority == p) =
      imps.filter (fun e => e.priority == p) :=
  List.filter_eq_self.mpr fun a ha => (List.mem_filter.mp ha).2

theorem filter_filter_ne (imps : List EnhAction) {p q : Priority} (h : q ≠ p) :
    (imps.filter (fun e => e.priority == q)).filter (fun e => e.priority == p) = [] := by
  rw [List.filter_eq_nil_iff]
  intro a ha
  rw [priority_of_mem_filter ha]
  simp [h]

/-- Within each priority group, `invocationOrder` preserves the insertion
order from synthesis exactly. -/
theorem invocationOrder_filter (imps : List EnhAction) (p : Priority) :
    (invocationOrder imps).filter (fun e => e.priority == p) =
      imps.filter (fun e => e.priority == p) := by
  unfold invocationOrder
  rw [List.filter_append, List.filter_append]
  cases p
  · rw [filter_filter_same, filter_filter_ne imps (by simp), filter_filter_ne imps (by simp)]
    simp
  · rw [filter_filter_same, filter_filter_ne imps (by simp), filter_filter_ne imps (by simp)]
    simp
  · rw [filter_filter_same, filter_filter_ne imps (by simp), filter_filter_ne imps (by simp)]
    simp

/-! ## Projection and stability lemmas for the file-system primitives -/

@[simp]
theorem FS.packageJson_writeF (s : FS) (p c : String) :
    (FS.writeF s p c).packageJson = s.packageJson := rfl

@[simp]
theorem FS.packageJson_mkdirF (s : FS) (d : String) :
    (FS.mkdirF s d).packageJson = s.packageJson := rfl

@[simp]
theorem FS.packageJson_setPJ (s : FS) (m : Manifest) :
    (FS.setPJ s m).packageJson = some m := rfl

@[simp]
theorem FS.files_writeF (s : FS) (p c : String) :
    (FS.writeF s p c).files = setKey s.files p (some c) := rfl

@[simp]
theorem FS.files_mkdirF (s : FS) (d : String) : (FS.mkdirF s d).files = s.files := rfl

@[simp]
theorem FS.files_setPJ (s : FS) (m : Manifest) : (FS.setPJ s m).files = s.files := rfl

@[simp]
theorem FS.dirs_writeF (s : FS) (p c : String) : (FS.writeF s p c).dirs = s.dirs := rfl

@[simp]
theorem FS.dirs_mkdirF (s : FS) (d : String) : (FS.mkdirF s d).dirs = addDir s.dirs d := rfl

@[simp]
theorem FS.dirs_setPJ (s : FS) (m : Manifest) : (FS.setPJ s m).dirs = s.dirs := rfl

theorem FS.setPJ_of_eq {s : FS} {m : Manifest} (h : s.packageJson = some m) :
    FS.setPJ s m = s := by
  cases s
  simp only [FS.setPJ]
  simp at h
  simp [h]

theorem FS.mkdirF_of_mem {s : FS} {d : String} (h : d ∈ s.dirs) : FS.mkdirF s d = s := by
  cases s
  simp only [FS.mkdirF]
  simp at h
  simp [addDir_eq_of_mem h]

theorem FS.writeF_of_lookup {s : FS} {p c : String}
    (h : lookupKey s.files p = some (some c)) : FS.writeF s p c = s := by
  cases s
  simp only [FS.writeF]
  simp at h
  simp [setKey_eq_of_lookup h]

@[simp]
theorem Manifest.dependencies_setDep (m : Manifest) (k v : String) :
    (Manifest.setDep m k v).dependencies = setKey m.dependencies k v := rfl

@[simp]
theorem Manifest.devDependencies_setDep (m : Manifest) (k v : String) :
    (Manifest.setDep m k v).devDependencies = m.devDependencies := rfl

@[simp]
theorem Manifest.scripts_setDep (m : Manifest) (k v : String) :
    (Manifest.setDep m k v).scripts = m.scripts := rfl

@[simp]
theorem Manifest.dependencies_setDevDep (m : Manifest) (k v : String) :
    (Manifest.setDevDep m k v).dependencies = m.dependencies := rfl

@[simp]
theorem Manifest.devDependencies_setDevDep (m : Manifest) (k v : String) :
    (Manifest.setDevDep m k v).devDependencies = setKey m.devDependencies k v := rfl

@[simp]
theorem Manifest.scripts_setDevDep (m : Manifest) (k v : String) :
    (Manifest.setDevDep m k v).scripts = m.scripts := rfl

@[simp]
theorem Manifest.dependencies_setScript (m : Manifest) (k v : String) :
    (Manifest.setScript m k v).dependencies = m.dependencies := rfl

@[simp]
theorem Manifest.devDependencies_setScript (m : Manifest) (k v : String) :
    (Manifest.setScript m k v).devDependencies = m.devDependencies := rfl

@[simp]
theorem Manifest.scripts_setScript (m : Manifest) (k v : String) :
    (Manifest.setScript m k v).scripts = setKey m.scripts k v := rfl

theorem Manifest.setDep_of_lookup {m : Manifest} {k v : String}
    (h : lookupKey m.dependencies k = some v) : Manifest.setDep m k v = m := by
  cases m
  simp only [Manifest.setDep]
  simp at h
  simp [setKey_eq_of_lookup h]

theorem Manifest.setDevDep_of_lookup {m : Manifest} {k v : String}
    (h : lookupKey m.devDependencies k = some v) : Manifest.setDevDep m k v = m := by
  cases m
  simp only [Manifest.setDevDep]
  simp at h
  simp [setKey_eq_of_lookup h]

theorem Manifest.setScript_of_lookup {m : Manifest} {k v : String}
    (h : lookupKey m.scripts k = some v) : Manifest.setScript m k v = m := by
  cases m
  simp only [Manifest.setScript]
  simp at h
  simp [setKey_eq_of_lookup h]

/-- Collapsing a re-run of the common shape `mkdir dir (if missing); write file`. -/
theorem mkdir_write_idem (s : FS) (u p b : String) :
    FS.writeF (FS.mkdirF (FS.writeF (FS.mkdirF s u) p b) u) p b =
      FS.writeF (FS.mkdirF s u) p b := by
  rw [FS.mkdirF_of_mem (by simp [mem_addDir_self])]
  rw [FS.writeF_of_lookup (by simp [lookup_setKey_self])]

/-! ## Idempotence of each implementation method -/

theorem interp_idem_addErrorHandling (s : FS) :
    interp ImplTag.addErrorHandling (interp ImplTag.addErrorHandling s).1 =
      interp ImplTag.addErrorHandling s := by
  simp only [interp]
  rw [mkdir_write_idem]

theorem interp_idem_addValidation (s : FS) :
    interp ImplTag.addValidation (interp ImplTag.addValidation s).1 =
      interp ImplTag.addValidation s := by
  cases hpj : s.packageJson with
  | none => simp [interp, hpj]
  | some m =>
      simp only [interp, hpj, FS.packageJson_writeF, FS.packageJson_mkdirF, FS.packageJson_setPJ]
      set m1 := Manifest.setDep m "joi" "^17.11.0" with hm1
      set S := FS.writeF (FS.mkdirF (FS.setPJ s m1) "src/utils")
        "src/utils/validation.js" validationBody with hS
      have h1 : Manifest.setDep m1 "joi" "^17.11.0" = m1 :=
        Manifest.setDep_of_lookup (by rw [hm1]; simp [lookup_setKey_self])
      rw [h1]
      have h2 : FS.setPJ S m1 = S := FS.setPJ_of_eq (by rw [hS]; simp)
      rw [h2]
      have h3 : FS.mkdirF S "src/utils" = S :=
        FS.mkdirF_of_mem (by rw [hS]; simp [mem_addDir_self])
      rw [h3]
      have h4 : FS.writeF S "src/utils/validation.js" validationBody = S :=
        FS.writeF_of_lookup (by rw [hS]; simp [lookup_setKey_self])
      rw [h4]

theorem interp_idem_addReactPerformanceUtils (s : FS) :
    interp ImplTag.addReactPerformanceUtils (interp ImplTag.addReactPerformanceUtils s).1 =
      interp ImplTag.addReactPerformanceUtils s := by
  simp only [interp]
  rw [mkdir_write_idem]

theorem interp_idem_addReactHooks (s : FS) :
    interp ImplTag.addReactHooks (interp ImplTag.addReactHooks s).1 =
      interp ImplTag.addReactHooks s := by
  simp only [interp]
  rw [mkdir_write_idem]

theorem interp_idem_addDatabaseUtils (s : FS) :
    interp ImplTag.addDatabaseUtils (interp ImplTag.addDatabaseUtils s).1 =
      interp ImplTag.addDatabaseUtils s := by
  simp only [interp]
  rw [mkdir_write_idem]

theorem interp_idem_addPythonLogging (s : FS) :
    interp ImplTag.addPythonLogging (interp ImplTag.addPythonLogging s).1 =
      interp ImplTag.addPythonLogging s := by
  simp only [interp]
  rw [mkdir_write_idem]

theorem interp_idem_addPythonWebUtils (s : FS) :
    interp ImplTag.addPythonWebUtils (interp ImplTag.addPythonWebUtils s).1 =
      interp ImplTag.addPythonWebUtils s := by
  simp only [interp]
  rw [mkdir_write_idem]

theorem interp_idem_addApiClientUtils (s : FS) :
    interp ImplTag.addApiClientUtils (interp ImplTag.addApiClientUtils s).1 =
      interp ImplTag.addApiClientUtils s := by
  simp only [interp]
  rw [mkdir_write_idem]

theorem interp_idem_addLogging (s : FS) :
    interp ImplTag.addLogging (interp ImplTag.addLogging s).1 =
      interp ImplTag.addLogging s := by
  cases hpj : s.packageJson with
  | none => simp [interp, hpj]
  | some m =>
      simp only [interp, hpj, FS.packageJson_writeF, FS.packageJson_mkdirF, FS.packageJson_setPJ]
      set m1 := Manifest.setDep m "winston" "^3.11.0" with hm1
      set S := FS.writeF (FS.mkdirF (FS.mkdirF (FS.setPJ s m1) "src/utils") "logs")
        "src/utils/logger.js" loggerJsBody with hS
      have h1 : Manifest.setDep m1 "winston" "^3.11.0" = m1 :=
        Manifest.setDep_of_lookup (by rw [hm1]; simp [lookup_setKey_self])
      rw [h1]
      have h2 : FS.setPJ S m1 = S := FS.setPJ_of_eq (by rw [hS]; simp)
      rw [h2]
      have h3 : FS.mkdirF S "src/utils" = S :=
        FS.mkdirF_of_mem (by
          rw [hS]
          simp only [FS.dirs_writeF, FS.dirs_mkdirF, FS.dirs_setPJ]
          exact mem_addDir_mono _ (mem_addDir_self _ _))
      rw [h3]
      have h4 : FS.mkdirF S "logs" = S :=
        FS.mkdirF_of_mem (by rw [hS]; simp [mem_addDir_self])
      rw [h4]
      have h5 : FS.writeF S "src/utils/logger.js" loggerJsBody = S :=
        FS.writeF_of_lookup (by rw [hS]; simp [lookup_setKey_self])
      rw [h5]

theorem interp_idem_addApiDocumentation (s : FS) :
    interp ImplTag.addApiDocumentation (interp ImplTag.addApiDocumentation s).1 =
      interp ImplTag.addApiDocumentation s := by
  cases hpj : s.packageJson with
  | none => simp [interp, hpj]
  | some m =>
      simp only [interp, hpj, FS.packageJson_writeF, FS.packageJson_mkdirF, FS.packageJson_setPJ]
      set m1 := Manifest.setDep (Manifest.setDep m "swagger-ui-express" "^5.0.0")
        "swagger-jsdoc" "^6.2.8" with hm1
      set S := FS.writeF (FS.mkdirF (FS.setPJ s m1) "src/utils")
        "src/utils/swagger.js" swaggerBody with hS
      have h1 : Manifest.setDep m1 "swagger-ui-express" "^5.0.0" = m1 :=
        Manifest.setDep_of_lookup (by
          rw [hm1]
          simp only [Manifest.dependencies_setDep]
          rw [lookup_setKey_ne _ _ (by decide), lookup_setKey_self])
      rw [h1]
      have h2 : Manifest.setDep m1 "swagger-jsdoc" "^6.2.8" = m1 :=
        Manifest.setDep_of_lookup (by rw [hm1]; simp [lookup_setKey_self])
      rw [h2]
      have h3 : FS.setPJ S m1 = S := FS.setPJ_of_eq (by rw [hS]; simp)
      rw [h3]
      have h4 : FS.mkdirF S "src/utils" = S :=
        FS.mkdirF_of_mem (by rw [hS]; simp [mem_addDir_self])
      rw [h4]
      have h5 : FS.writeF S "src/utils/swagger.js" swaggerBody = S :=
        FS.writeF_of_lookup (by rw [hS]; simp [lookup_setKey_self])
      rw [h5]

theorem interp_idem_addReactRouter (s : FS) :
    interp ImplTag.addReactRouter (interp ImplTag.addReactRouter s).1 =
      interp ImplTag.addReactRouter s := by
  cases hpj : s.packageJson with
  | none => simp [interp, hpj]
  | some m =>
      simp only [interp, hpj, FS.packageJson_writeF, FS.packageJson_mkdirF, FS.packageJson_setPJ]
      set m1 := Manifest.setDep m "react-router-dom" "^6.8.0" with hm1
      set S := FS.setPJ s m1 with hS
      have h1 : Manifest.setDep m1 "react-router-dom" "^6.8.0" = m1 :=
        Manifest.setDep_of_lookup (by rw [hm1]; simp [lookup_setKey_self])
      rw [h1]
      have h2 : FS.setPJ S m1 = S := FS.setPJ_of_eq (by rw [hS]; simp)
      rw [h2]

theorem interp_idem_addSecurityMiddleware (s : FS) :
    interp ImplTag.addSecurityMiddleware (interp ImplTag.addSecurityMiddleware s).1 =
      interp ImplTag.addSecurityMiddleware s := by
  cases hpj : s.packageJson with
  | none => simp [interp, hpj]
  | some m =>
      simp only [interp, hpj, FS.packageJson_writeF, FS.packageJson_mkdirF, FS.packageJson_setPJ]
      set m1 := Manifest.setDep (Manifest.setDep (Manifest.setDep m "helmet" "^7.1.0")
        "cors" "^2.8.5") "express-rate-limit" "^7.1.5" with hm1
      set S := FS.writeF (FS.mkdirF (FS.setPJ s m1) "src/middleware")
        "src/middleware/security.js" securityBody with hS
      have h1 : Manifest.setDep m1 "helmet" "^7.1.0" = m1 :=
        Manifest.setDep_of_lookup (by
          rw [hm1]
          simp only [Manifest.dependencies_setDep]
          rw [lookup_setKey_ne _ _ (by decide), lookup_setKey_ne _ _ (by decide),
            lookup_setKey_self])
      rw [h1]
      have h2 : Manifest.setDep m1 "cors" "^2.8.5" = m1 :=
        Manifest.setDep_of_lookup (by
          rw [hm1]
          simp only [Manifest.dependencies_setDep]
          rw [lookup_setKey_ne _ _ (by decide), lookup_setKey_self])
      rw [h2]
      have h3 : Manifest.setDep m1 "express-rate-limit" "^7.1.5" = m1 :=
        Manifest.setDep_of_lookup (by rw [hm1]; simp [lookup_setKey_self])
      rw [h3]
      have h4 : FS.setPJ S m1 = S := FS.setPJ_of_eq (by rw [hS]; simp)
      rw [h4]
      have h5 : FS.mkdirF S "src/middleware" = S :=
        FS.mkdirF_of_mem (by rw [hS]; simp [mem_addDir_self])
      rw [h5]
      have h6 : FS.writeF S "src/middleware/security.js" securityBody = S :=
        FS.writeF_of_lookup (by rw [hS]; simp [lookup_setKey_self])
      rw [h6]

theorem interp_idem_addRateLimitingAndCaching (s : FS) :
    interp ImplTag.addRateLimitingAndCaching (interp ImplTag.addRateLimitingAndCaching s).1 =
      interp ImplTag.addRateLimitingAndCaching s := by
  cases hpj : s.packageJson with
  | none => simp [interp, hpj]
  | some m =>
      simp only [interp, hpj, FS.packageJson_writeF, FS.packageJson_mkdirF, FS.packageJson_setPJ]
      set m1 := Manifest.setDep m "node-cache" "^5.1.2" with hm1
      set S := FS.writeF (FS.mkdirF (FS.setPJ s m1) "src/utils")
        "src/utils/cache.js" cacheBody with hS
      have h1 : Manifest.setDep m1 "node-cache" "^5.1.2" = m1 :=
        Manifest.setDep_of_lookup (by rw [hm1]; simp [lookup_setKey_self])
      rw [h1]
      have h2 : FS.setPJ S m1 = S := FS.setPJ_of_eq (by rw [hS]; simp)
      rw [h2]
      have h3 : FS.mkdirF S "src/utils" = S :=
        FS.mkdirF_of_mem (by rw [hS]; simp [mem_addDir_self])
      rw [h3]
      have h4 : FS.writeF S "src/utils/cache.js" cacheBody = S :=
        FS.writeF_of_lookup (by rw [hS]; simp [lookup_setKey_self])
      rw [h4]

theorem interp_idem_enhanceTestingConfig (s : FS) :
    interp ImplTag.enhanceTestingConfig (interp ImplTag.enhanceTestingConfig s).1 =
      interp ImplTag.enhanceTestingConfig s := by
  cases hpj : s.packageJson with
  | none => simp [interp, hpj]
  | some m =>
      simp only [interp, hpj, FS.packageJson_writeF, FS.packageJson_mkdirF, FS.packageJson_setPJ]
      set m1 := Manifest.setDevDep (Manifest.setDevDep (Manifest.setScript
        (Manifest.setScript m "test:coverage" "jest --coverage") "test:watch" "jest --watch")
        "@types/jest" "^29.5.2") "supertest" "^6.3.3" with hm1
      set S := FS.writeF (FS.setPJ s m1) "jest.config.js" jestConfigBody with hS
      have h1 : Manifest.setScript m1 "test:coverage" "jest --coverage" = m1 :=
        Manifest.setScript_of_lookup (by
          rw [hm1]
          simp only [Manifest.scripts_setDevDep, Manifest.scripts_setScript]
          rw [lookup_setKey_ne _ _ (by decide), lookup_setKey_self])
      rw [h1]
      have h2 : Manifest.setScript m1 "test:watch" "jest --watch" = m1 :=
        Manifest.setScript_of_lookup (by
          rw [hm1]
          simp only [Manifest.scripts_setDevDep, Manifest.scripts_setScript]
          rw [lookup_setKey_self])
      rw [h2]
      have h3 : Manifest.setDevDep m1 "@types/jest" "^29.5.2" = m1 :=
        Manifest.setDevDep_of_lookup (by
          rw [hm1]
          simp only [Manifest.devDependencies_setDevDep, Manifest.devDependencies_setScript]
          rw [lookup_setKey_ne _ _ (by decide), lookup_setKey_self])
      rw [h3]
      have h4 : Manifest.setDevDep m1 "supertest" "^6.3.3" = m1 :=
        Manifest.setDevDep_of_lookup (by
          rw [hm1]
          simp only [Manifest.devDependencies_setDevDep, Manifest.devDependencies_setScript]
          rw [lookup_setKey_self])
      rw [h4]
      have h5 : FS.setPJ S m1 = S := FS.setPJ_of_eq (by rw [hS]; simp)
      rw [h5]
      have h6 : FS.writeF S "jest.config.js" jestConfigBody = S :=
        FS.writeF_of_lookup (by rw [hS]; simp [lookup_setKey_self])
      rw [h6]

theorem interp_idem_addEnvironmentConfig (s : FS) :
    interp ImplTag.addEnvironmentConfig (interp ImplTag.addEnvironmentConfig s).1 =
      interp ImplTag.addEnvironmentConfig s := by
  cases hpj : s.packageJson with
  | none => simp [interp, hpj]
  | some m =>
      simp only [interp, hpj]
      set m1 := Manifest.setDep m "dotenv" "^16.3.1" with hm1
      set s1 := FS.writeF (FS.setPJ s m1) ".env.example" envExampleBody with hs1
      have hpj1 : s1.packageJson = some m1 := by rw [hs1]; simp
      have h1 : Manifest.setDep m1 "dotenv" "^16.3.1" = m1 :=
        Manifest.setDep_of_lookup (by rw [hm1]; simp [lookup_setKey_self])
      have henv : lookupKey s1.files ".env.example" = some (some envExampleBody) := by
        rw [hs1]; simp [lookup_setKey_self]
      cases hg : lookupKey s1.files ".gitignore" with
      | none =>
          simp only [hg, FS.packageJson_writeF, hpj1, h1]
          set S2 := FS.writeF s1 ".gitignore" gitignoreFreshBody with hS2
          have h2 : FS.setPJ S2 m1 = S2 :=
            FS.setPJ_of_eq (by rw [hS2]; simp [hpj1])
          rw [h2]
          have h3 : FS.writeF S2 ".env.example" envExampleBody = S2 :=
            FS.writeF_of_lookup (by
              rw [hS2]
              simp only [FS.files_writeF]
              rw [lookup_setKey_ne _ _ (by decide), henv])
          rw [h3]
          have h4 : lookupKey S2.files ".gitignore" = some (some gitignoreFreshBody) := by
            rw [hS2]; simp [lookup_setKey_self]
          simp only [h4]
          rw [if_pos (show containsSub gitignoreFreshBody ".env" = true from by decide)]
      | some og =>
          cases og with
          | none =>
              simp only [hg, hpj1, h1]
              have h2 : FS.setPJ s1 m1 = s1 := FS.setPJ_of_eq hpj1
              rw [h2]
              have h3 : FS.writeF s1 ".env.example" envExampleBody = s1 :=
                FS.writeF_of_lookup henv
              rw [h3]
              simp only [hg]
          | some g =>
              by_cases hc : containsSub g ".env" = true
              · simp only [hg, if_pos hc, hpj1, h1]
                have h2 : FS.setPJ s1 m1 = s1 := FS.setPJ_of_eq hpj1
                rw [h2]
                have h3 : FS.writeF s1 ".env.example" envExampleBody = s1 :=
                  FS.writeF_of_lookup henv
                rw [h3]
                simp only [hg, if_pos hc]
              · simp only [hg, if_neg hc, FS.packageJson_writeF, hpj1, h1]
                set S2 := FS.writeF s1 ".gitignore" (g ++ gitignoreAppendText) with hS2
                have h2 : FS.setPJ S2 m1 = S2 :=
                  FS.setPJ_of_eq (by rw [hS2]; simp [hpj1])
                rw [h2]
                have h3 : FS.writeF S2 ".env.example" envExampleBody = S2 :=
                  FS.writeF_of_lookup (by
                    rw [hS2]
                    simp only [FS.files_writeF]
                    rw [lookup_setKey_ne _ _ (by decide), henv])
                rw [h3]
                have h4 : lookupKey S2.files ".gitignore" =
                    some (some (g ++ gitignoreAppendText)) := by
                  rw [hS2]; simp [lookup_setKey_self]
                simp only [h4]
                rw [if_pos (containsSub_append_right g gitignoreAppendText ".env" (by decide))]

theorem interp_idem_addPythonTypeHints (s : FS) :
    interp ImplTag.addPythonTypeHints (interp ImplTag.addPythonTypeHints s).1 =
      interp ImplTag.addPythonTypeHints s := by
  simp only [interp]
  cases hr : lookupKey s.files "requirements.txt" with
  | none =>
      simp only [hr]
      set S := FS.writeF (FS.writeF s "requirements.txt" mypyAppendText)
        "mypy.ini" mypyIniBody with hS
      have h1 : lookupKey S.files "requirements.txt" = some (some mypyAppendText) := by
        rw [hS]
        simp only [FS.files_writeF]
        rw [lookup_setKey_ne _ _ (by decide), lookup_setKey_self]
      simp only [h1]
      rw [if_pos (show containsSub mypyAppendText "mypy" = true from by decide)]
      have h2 : FS.writeF S "requirements.txt" mypyAppendText = S := FS.writeF_of_lookup h1
      rw [h2]
      have h3 : FS.writeF S "mypy.ini" mypyIniBody = S :=
        FS.writeF_of_lookup (by rw [hS]; simp [lookup_setKey_self])
      rw [h3]
  | some og =>
      cases og with
      | none => simp [hr]
      | some r =>
          simp only [hr]
          set r2 := if containsSub r "mypy" = true then r else r ++ mypyAppendText with hr2
          set S := FS.writeF (FS.writeF s "requirements.txt" r2) "mypy.ini" mypyIniBody with hS
          have hcr2 : containsSub r2 "mypy" = true := by
            rw [hr2]
            by_cases hc : containsSub r "mypy" = true
            · simp [hc]
            · simp only [if_neg hc]
              exact containsSub_append_right r mypyAppendText "mypy" (by decide)
          have h1 : lookupKey S.files "requirements.txt" = some (some r2) := by
            rw [hS]
            simp only [FS.files_writeF]
            rw [lookup_setKey_ne _ _ (by decide), lookup_setKey_self]
          simp only [h1]
          rw [if_pos hcr2]
          have h2 : FS.writeF S "requirements.txt" r2 = S := FS.writeF_of_lookup h1
          rw [h2]
          have h3 : FS.writeF S "mypy.ini" mypyIniBody = S :=
            FS.writeF_of_lookup (by rw [hS]; simp [lookup_setKey_self])
          rw [h3]

/-- Idempotence of every implementation method, by cases on the method. -/
theorem interp_idem (t : ImplTag) (s : FS) : interp t (interp t s).1 = interp t s := by
  cases t
  case addLogging => exact interp_idem_addLogging s
  case addErrorHandling => exact interp_idem_addErrorHandling s
  case addEnvironmentConfig => exact interp_idem_addEnvironmentConfig s
  case addValidation => exact interp_idem_addValidation s
  case addApiDocumentation => exact interp_idem_addApiDocumentation s
  case enhanceTestingConfig => exact interp_idem_enhanceTestingConfig s
  case addReactPerformanceUtils => exact interp_idem_addReactPerformanceUtils s
  case addReactRouter => exact interp_idem_addReactRouter s
  case addReactHooks => exact interp_idem_addReactHooks s
  case addDatabaseUtils => exact interp_idem_addDatabaseUtils s
  case addSecurityMiddleware => exact interp_idem_addSecurityMiddleware s
  case addRateLimitingAndCaching => exact interp_idem_addRateLimitingAndCaching s
  case addPythonLogging => exact interp_idem_addPythonLogging s
  case addPythonWebUtils => exact interp_idem_addPythonWebUtils s
  case addPythonTypeHints => exact interp_idem_addPythonTypeHints s
  case addApiClientUtils => exact interp_idem_addApiClientUtils s

/-! ## Synthesizer lemmas -/

theorem seg_cons_sublist {α : Type} (c : Prop) [Decidable c] (x : α) {l1 l2 : List α}
    (h : List.Sublist l1 l2) : List.Sublist ((if c then [x] else []) ++ l1) (x :: l2) := by
  by_cases hc : c
  · simp only [if_pos hc, List.singleton_append]
    exact List.Sublist.cons₂ x h
  · simp only [if_neg hc, List.nil_append]
    exact List.Sublist.cons x h

theorem seg_cons_sublist_neg {α : Type} (c : Prop) [Decidable c] (x : α) {l1 l2 : List α}
    (h : List.Sublist l1 l2) : List.Sublist ((if c then [] else [x]) ++ l1) (x :: l2) := by
  by_cases hc : c
  · simp only [if_pos hc, List.nil_append]
    exact List.Sublist.cons x h
  · simp only [if_neg hc, List.singleton_append]
    exact List.Sublist.cons₂ x h

/-- The description list of any synthesized improvement list embeds into the
fixed description list of the six generic rules followed by the
template-specific rules. -/
theorem identify_descs_sublist (t : String) (st : ProjectStructure) (pj : Option Manifest) :
    List.Sublist ((identifyImprovements t st pj).map (fun e => e.description))
      ([loggingEnh.description, errorHandlingEnh.description, envConfigEnh.description,
        validationEnh.description, apiDocEnh.description, testingEnh.description] ++
        (getTemplateSpecificImprovements t st).map (fun e => e.description)) := by
  simp only [identifyImprovements, List.map_append, apply_ite (List.map
    (fun (e : Enhancement) => e.description)), List.map_cons, List.map_nil,
    List.append_assoc]
  refine seg_cons_sublist_neg _ _ (seg_cons_sublist_neg _ _ (seg_cons_sublist_neg _ _
    (seg_cons_sublist _ _ (seg_cons_sublist _ _ ?_))))
  simp only [List.singleton_append, List.cons_append, List.nil_append]
  exact List.Sublist.refl _

/-- For every template family (the four known ones and any other string) the
master description list has no duplicates; in particular the react and node
rule sets of full-stack share no description with each other or with the
generic rules. -/
theorem master_descs_nodup (t : String) (st : ProjectStructure) :
    ([loggingEnh.description, errorHandlingEnh.description, envConfigEnh.description,
      validationEnh.description, apiDocEnh.description, testingEnh.description] ++
      (getTemplateSpecificImprovements t st).map (fun e => e.description)).Nodup := by
  unfold getTemplateSpecificImprovements
  split_ifs <;>
    simp only [getReactImprovements, getNodeImprovements, getPythonImprovements,
      getFullStackImprovements, List.map_append, List.map_cons, List.map_nil] <;>
    decide

/-- Anything contributed by the template-specific rules is synthesized. -/
theorem mem_identify_of_mem_tspec {t : String} {st : ProjectStructure} {e : Enhancement}
    (pj : Option Manifest) (h : e ∈ getTemplateSpecificImprovements t st) :
    e ∈ identifyImprovements t st pj := by
  unfold identifyImprovements
  exact List.mem_append_right _ h

theorem tspec_react (st : ProjectStructure) :
    getTemplateSpecificImprovements "react" st = getReactImprovements st := rfl

theorem tspec_python (st : ProjectStructure) :
    getTemplateSpecificImprovements "python" st = getPythonImprovements st := rfl

theorem tspec_fullstack (st : ProjectStructure) :
    getTemplateSpecificImprovements "full-stack" st = getFullStackImprovements st := rfl

/-! ## Classifier lemmas -/

theorem depTruthy_eq (pj : Option Manifest) (lib : String) :
    depTruthy pj lib = truthyStr (depLookup pj lib) := by
  cases pj <;> rfl

theorem devDepTruthy_eq (pj : Option Manifest) (lib : String) :
    devDepTruthy pj lib = truthyStr (devDepLookup pj lib) := by
  cases pj <;> rfl

/-- If every listed code file that exists is readable, the content scan
completes without raising. -/
theorem scan_ok_of_readable (fs : FS) (files : List String)
    (h : ∀ f ∈ files, isCodeFile f = true → lookupKey fs.files f ≠ some none) :
    ∃ b, checkForErrorHandling fs files = Except.ok b := by
  induction files with
  | nil => exact ⟨false, rfl⟩
  | cons f rest ih =>
      have hrest : ∀ g ∈ rest, isCodeFile g = true → lookupKey fs.files g ≠ some none :=
        fun g hg => h g (List.mem_cons_of_mem f hg)
      by_cases hcode : isCodeFile f = true
      · cases hf : lookupKey fs.files f with
        | none =>
            obtain ⟨b, hb⟩ := ih hrest
            exact ⟨b, by simp [checkForErrorHandling, hcode, hf, hb]⟩
        | some oc =>
            cases oc with
            | none => exact absurd hf (h f (List.mem_cons_self f rest) hcode)
            | some content =>
                by_cases hkw : (containsSub content "try" || containsSub content "catch" ||
                    containsSub content "throw") = true
                · exact ⟨true, by simp [checkForErrorHandling, hcode, hf, hkw]⟩
                · obtain ⟨b, hb⟩ := ih hrest
                  exact ⟨b, by simp [checkForErrorHandling, hcode, hf, hkw, hb]⟩
      · obtain ⟨b, hb⟩ := ih hrest
        exact ⟨b, by simp [checkForErrorHandling, hcode, hb]⟩

/-- A listed file that no longer exists is skipped by the content scan. -/
theorem scan_skips_missing (fs : FS) (f : String) (rest : List String)
    (h : lookupKey fs.files f = none) :
    checkForErrorHandling fs (f :: rest) = checkForErrorHandling fs rest := by
  by_cases hcode : isCodeFile f = true
  · simp [checkForErrorHandling, hcode, h]
  · simp [checkForErrorHandling, hcode]

/-! ## Claim theorems -/

/-- C1 (amended): the applier never propagates an exception, and already
applied effects are kept: `applyAll` equals one pass over `invocationOrder`
that stops at the first throw, with the result state being the state at the
throw.  The summary artifact at `AI_ENHANCEMENTS.md` is written only on the
all-success path; its text is rendered from the full analysis, whose line
list enumerates every synthesized enhancement (each labelled with its
priority, in synthesis order), not just the successfully applied ones. -/
theorem c1_summary_on_success_only :
    (∀ (imps : List EnhAction) (txt : String) (s : FS),
      applyAll imps txt s =
        (let r := runList (invocationOrder imps) s
         (if r.2.1 then FS.writeF r.1 summaryPath txt else r.1, r.2.1, r.2.2))) ∧
    (∀ (a : ProjectAnalysis) (e : Enhancement), e ∈ a.improvements →
      summaryLine e ∈ summaryLines a) := by
  constructor
  · exact applyAll_eq
  · intro a e he
    exact List.mem_append_left _
      (List.mem_append_left _ (List.mem_map_of_mem summaryLine he))

/-- C1 witness: a concrete instantiation of the enumeration half of the
amended claim. -/
theorem c1_summary_on_success_only_witness :
    summaryLine testingEnh ∈ summaryLines
      (ProjectAnalysis.mk "node" none [] [] []
        (ProjectStructure.mk false false false false false false false false false false)
        [testingEnh]) :=
  c1_summary_on_success_only.2 _ testingEnh (by decide)

/-- C1 counterexample: running `enhanceWithAI` on a project with no
`package.json` makes the very first apply (`addLogging`) throw; the run is
caught (it returns rather than raising and records the attempted
invocation), but no summary artifact is written, refuting the claim that a
summary is always written when an apply throws. -/
theorem c1_counterexample :
    (enhanceWithAI (FS.mk none [] []) [] "node").2.1 = false ∧
      lookupKey (enhanceWithAI (FS.mk none [] []) [] "node").1.files summaryPath = none ∧
      (enhanceWithAI (FS.mk none [] []) [] "node").2.2 =
        ["Add structured logging with Winston"] :=
  ⟨rfl, rfl, rfl⟩

/-- C2: the applier invokes actions in `invocationOrder`: its trace is always
a prefix of the descriptions of `invocationOrder` (so every invoked high
action precedes every invoked medium action, and so on), priority ranks never
decrease along that order, and within one priority group the order is exactly
the insertion order from synthesis. -/
theorem c2_priority_ordering (imps : List EnhAction) (txt : String) (s : FS) :
    (∃ k, (applyAll imps txt s).2.2 =
        ((invocationOrder imps).map (fun e => e.description)).take k) ∧
      List.Pairwise (fun a b => prioRank a.priority ≤ prioRank b.priority)
        (invocationOrder imps) ∧
      ∀ p, (invocationOrder imps).filter (fun e => e.priority == p) =
        imps.filter (fun e => e.priority == p) := by
  refine ⟨?_, invocationOrder_sorted imps, invocationOrder_filter imps⟩
  rw [applyAll_eq]
  simpa using runList_trace_take (invocationOrder imps) s

/-- C3 (amended): a listed code file that does not exist is skipped by the
error-handling content scan, and the scan completes without raising whenever
every listed code file that exists is readable; but (see the counterexample)
an existing unreadable file makes `readFileSync` raise and aborts the scan. -/
theorem c3_scan_error_semantics (fs : FS) (files : List String) :
    ((∀ f ∈ files, isCodeFile f = true → lookupKey fs.files f ≠ some none) →
      ∃ b, checkForErrorHandling fs files = Except.ok b) ∧
    (∀ f rest, lookupKey fs.files f = none →
      checkForErrorHandling fs (f :: rest) = checkForErrorHandling fs rest) :=
  ⟨scan_ok_of_readable fs files, fun f rest h => scan_skips_missing fs f rest h⟩

/-- C3 witness: on a readable snapshot the scan succeeds. -/
theorem c3_scan_error_semantics_witness :
    ∃ b, checkForErrorHandling (FS.mk none [("a.js", some "plain source")] [])
      ["a.js", "notes.txt"] = Except.ok b :=
  (c3_scan_error_semantics (FS.mk none [("a.js", some "plain source")] [])
    ["a.js", "notes.txt"]).1 (by decide)

/-- C3 counterexample: a code file that exists but is unreadable makes the
content scan raise instead of being skipped. -/
theorem c3_counterexample :
    checkForErrorHandling (FS.mk none [("a.js", none)] []) ["a.js"] = Except.error () := rfl

/-- C4 (amended): a logging allow-list name mapped to a non-empty version
string in the dependencies or dev-dependencies forces `hasLogging = true`;
and when no allow-list name is present at all and no file path contains the
substring `log`, `hasLogging = false`.  (An allow-list name mapped to the
empty string is falsy in the source's truthiness test — see the
counterexample.) -/
theorem c4_logging_allowlist (files : List String) (pj : Option Manifest) :
    (∀ lib v, lib ∈ loggingLibs →
      (depLookup pj lib = some v ∨ devDepLookup pj lib = some v) → v ≠ "" →
      checkForLogging files pj = true) ∧
    ((∀ lib ∈ loggingLibs, depLookup pj lib = none ∧ devDepLookup pj lib = none) →
      (∀ f ∈ files, containsSub f "log" = false) →
      checkForLogging files pj = false) := by
  constructor
  · intro lib v hlib hlook hv
    unfold checkForLogging
    rw [Bool.or_eq_true, List.any_eq_true]
    refine Or.inl ⟨lib, hlib, ?_⟩
    rw [Bool.or_eq_true, depTruthy_eq, devDepTruthy_eq]
    rcases hlook with hd | hd
    · exact Or.inl (by rw [hd]; simpa [truthyStr] using hv)
    · exact Or.inr (by rw [hd]; simpa [truthyStr] using hv)
  · intro hlibs hfiles
    unfold checkForLogging
    rw [Bool.or_eq_false_iff]
    constructor
    · rw [List.any_eq_false]
      intro lib hlib
      rw [Bool.or_eq_true, depTruthy_eq, devDepTruthy_eq,
        (hlibs lib hlib).1, (hlibs lib hlib).2]
      simp [truthyStr]
    · rw [List.any_eq_false]
      intro f hf
      simp [hfiles f hf]

/-- C4 witness: a non-empty winston version makes `hasLogging` true. -/
theorem c4_logging_allowlist_witness :
    checkForLogging [] (some (Manifest.mk "app" [("winston", "^3.11.0")] [] [])) = true :=
  (c4_logging_allowlist [] (some (Manifest.mk "app" [("winston", "^3.11.0")] [] []))).1
    "winston" "^3.11.0" (by decide) (Or.inl rfl) (by decide)

/-- C4 counterexample: a manifest whose dependencies contain the allow-list
name `winston` (bound to the empty version string) still classifies as
`hasLogging = false`, because the source tests the truthiness of the looked
up version rather than key membership. -/
theorem c4_counterexample :
    "winston" ∈ loggingLibs ∧
      "winston" ∈ depsList (some (Manifest.mk "app" [("winston", "")] [] [])) ∧
      checkForLogging [] (some (Manifest.mk "app" [("winston", "")] [] [])) = false :=
  ⟨by decide, by decide, rfl⟩

/-- C5: for every template family (known or unknown) and every feature
vector, the synthesized enhancement descriptions are pairwise distinct; in
particular the full-stack concatenation of the react and node rule sets
introduces no duplicate description. -/
theorem c5_descriptions_nodup (template : String) (st : ProjectStructure)
    (pj : Option Manifest) :
    ((identifyImprovements template st pj).map (fun e => e.description)).Nodup :=
  (master_descs_nodup template st).sublist (identify_descs_sublist template st pj)

/-- C6: react synthesis contains the router dependency enhancement and the
performance-utility enhancement; python synthesis contains the logging
configuration enhancement at high priority; full-stack synthesis ends with
the entire react rule set, the entire node rule set and the high-priority
API-client enhancement.  Synthesis is a total function, so it cannot throw. -/
theorem c6_template_specialization (st : ProjectStructure) (pj : Option Manifest) :
    (reactRouterEnh ∈ identifyImprovements "react" st pj ∧
      reactRouterEnh.etype = EnhType.dependency ∧
      reactPerfEnh ∈ identifyImprovements "react" st pj) ∧
    (pythonLoggingEnh ∈ identifyImprovements "python" st pj ∧
      pythonLoggingEnh.priority = Priority.high) ∧
    (∃ pre, identifyImprovements "full-stack" st pj =
      pre ++ (getReactImprovements st ++ getNodeImprovements st ++ [apiClientEnh])) ∧
    apiClientEnh.priority = Priority.high := by
  refine ⟨⟨?_, rfl, ?_⟩, ⟨?_, rfl⟩, ?_, rfl⟩
  · exact mem_identify_of_mem_tspec pj (by
      rw [tspec_react]
      unfold getReactImprovements
      exact List.mem_cons_of_mem _ (List.mem_cons_self _ _))
  · exact mem_identify_of_mem_tspec pj (by
      rw [tspec_react]
      unfold getReactImprovements
      exact List.mem_cons_self _ _)
  · exact mem_identify_of_mem_tspec pj (by
      rw [tspec_python]
      unfold getPythonImprovements
      exact List.mem_cons_self _ _)
  · refine ⟨(if st.hasLogging then [] else [loggingEnh]) ++
      (if st.hasErrorHandling then [] else [errorHandlingEnh]) ++
      (if st.hasEnvironmentConfig then [] else [envConfigEnh]) ++
      (if nodeLike "full-stack" && !st.hasValidation then [validationEnh] else []) ++
      (if nodeLike "full-stack" && !st.hasApiDocumentation then [apiDocEnh] else []) ++
      [testingEnh], ?_⟩
    unfold identifyImprovements
    rw [tspec_fullstack]
    unfold getFullStackImprovements
    simp [List.append_assoc]

/-- C7: every enhancement's apply operation is idempotent on the whole
file-system state: a second run of the same implementation method leaves the
manifest and every written file byte-identical to one run (and reproduces the
same success or throw). -/
theorem c7_apply_idempotent (e : Enhancement) (s : FS) :
    interp e.impl (interp e.impl s).1 = interp e.impl s :=
  interp_idem e.impl s

/-- C8 (amended): on a snapshot with no manifest the classifier succeeds —
provided the content scan does not raise on an unreadable code file (see the
counterexample) — and the analysis reports empty dependency and
dev-dependency lists. -/
theorem c8_absent_manifest_classifies (fs : FS) (files : List String) (template : String)
    (hpj : fs.packageJson = none)
    (hread : ∀ f ∈ files, isCodeFile f = true → lookupKey fs.files f ≠ some none) :
    ∃ a, analyze fs files template = Except.ok a ∧
      a.dependencies = [] ∧ a.devDependencies = [] := by
  obtain ⟨b, hb⟩ := scan_ok_of_readable fs files hread
  have hstruct : ∃ st, analyzeStructure fs files none = Except.ok st := by
    unfold analyzeStructure
    rw [hb]
    exact ⟨_, rfl⟩
  obtain ⟨st, hst⟩ := hstruct
  refine ⟨ProjectAnalysis.mk template none (depsList none) (devDepsList none) files st
    (identifyImprovements template st none), ?_, rfl, rfl⟩
  unfold analyze
  rw [hpj, hst]

/-- C8 witness: a readable snapshot with no manifest classifies successfully
with zero dependency counts. -/
theorem c8_absent_manifest_classifies_witness :
    ∃ a, analyze (FS.mk none [("a.js", some "plain source")] []) ["a.js"] "react" =
      Except.ok a ∧ a.dependencies = [] ∧ a.devDependencies = [] :=
  c8_absent_manifest_classifies (FS.mk none [("a.js", some "plain source")] [])
    ["a.js"] "react" rfl (by decide)

/-- C8 counterexample: with an absent manifest but an unreadable code file the
whole analysis raises, so classification with an absent manifest is not
unconditionally error-free. -/
theorem c8_counterexample :
    analyze (FS.mk none [("a.js", none)] []) ["a.js"] "node" = Except.error () := rfl

/-- C9: the testing-configuration enhancement is synthesized unconditionally,
at medium priority and of config type, so the synthesized list is never
empty. -/
theorem c9_testing_always (template : String) (st : ProjectStructure)
    (pj : Option Manifest) :
    testingEnh ∈ identifyImprovements template st pj ∧
      testingEnh.priority = Priority.medium ∧
      testingEnh.etype = EnhType.config ∧
      identifyImprovements template st pj ≠ [] := by
  have hmem : testingEnh ∈ identifyImprovements template st pj := by
    unfold identifyImprovements
    exact List.mem_append_left _ (List.mem_append_right _ (List.mem_singleton.mpr rfl))
  exact ⟨hmem, rfl, rfl, List.ne_nil_of_mem hmem⟩

/-- C10 (amended): `hasValidation` is computed from the manifest alone — the
file list has no influence — and it is true exactly when a validation
allow-list name is bound to a truthy (non-empty) version string in the
dependencies or dev-dependencies. -/
theorem c10_validation_manifest_only (files1 files2 : List String) (pj : Option Manifest) :
    checkForValidation files1 pj = checkForValidation files2 pj ∧
      (checkForValidation files1 pj = true ↔
        ∃ lib, lib ∈ validationLibs ∧
          (truthyStr (depLookup pj lib) = true ∨
            truthyStr (devDepLookup pj lib) = true)) := by
  constructor
  · rfl
  · unfold checkForValidation
    rw [List.any_eq_true]
    constructor
    · rintro ⟨lib, hlib, h⟩
      rw [Bool.or_eq_true, depTruthy_eq, devDepTruthy_eq] at h
      exact ⟨lib, hlib, h⟩
    · rintro ⟨lib, hlib, h⟩
      exact ⟨lib, hlib, by rw [Bool.or_eq_true, depTruthy_eq, devDepTruthy_eq]; exact h⟩

/-- C10 counterexample: `zod` appearing among the dependencies with an empty
version string does not make `hasValidation` true, refuting the claim that
presence of the name alone decides the feature. -/
theorem c10_counterexample :
    "zod" ∈ validationLibs ∧
      "zod" ∈ depsList (some (Manifest.mk "app" [("zod", "")] [] [])) ∧
      checkForValidation [] (some (Manifest.mk "app" [("zod", "")] [] [])) = false :=
  ⟨by decide, by decide, rfl⟩
